import Mathlib

/-!
Shallow embedding of the xicor crate (Chatterjee xi rank correlation).

Sources embedded: src/xicor.rs (primary revision: f64-accumulating `xicor`,
`xicor_norm`, `xicorf`, `xicorf_norm`, plus the private helpers `argsort`,
`permute`, `cumulative_lte`, `cumulative_gte`) and src/lib.rs (earlier
revision whose `xicor` accumulates `rsum`/`lsum` as `usize`).

Modelling conventions:
- Element values are generic over a linear order (the Rust code is generic
  over `T: Ord`).  `xicorf` reinterprets NaN-free floats as an `Ord` wrapper
  with the standard order; we model such float inputs as exact rationals.
- Every f64 quantity inside `xicor` is integer-valued (rank counts and sums
  of rank counts), so f64 arithmetic on them is exact and is modelled in ℚ.
  The final division is the one place a non-finite value can appear; its
  IEEE outcome is modelled by `FVal` (`fin q`, `posInf`, `negInf`, `nan`),
  with division by zero mapped exactly as IEEE-754 maps it for a +0 divisor.
- A Rust panic (the `assert!` on mismatched lengths, and the
  `arr.len()-1` underflow / out-of-bounds index that `cumulative_lte` and
  `cumulative_gte` hit on an empty slice) is modelled as `Option.none`.
- `sort_unstable_by_key(|&i| &arr[i])` sorts the index list by the keyed
  comparison; we model it with the deterministic `List.mergeSort` over the
  same Bool-valued key comparison.
-/

/-- Outcome of an f64 computation whose operands are exact rationals:
either a finite value (held exactly), an infinity, or NaN. -/
inductive FVal : Type where
  | fin (q : ℚ)
  | posInf
  | negInf
  | nan
deriving DecidableEq

/-- IEEE-754 division `num / den` of two exactly-represented finite values,
where a zero divisor is +0 (every zero denominator arising in this program
is produced as `0.0 / positive` or as an empty/zero f64 sum, hence +0). -/
def xiDiv (num den : ℚ) : FVal :=
  if den = 0 then
    if num = 0 then FVal.nan else if 0 < num then FVal.posInf else FVal.negInf
  else FVal.fin (num / den)

/-- IEEE-754 subtraction `1.0 - v`. -/
def FVal.oneSub : FVal → FVal
  | FVal.fin q => FVal.fin (1 - q)
  | FVal.posInf => FVal.negInf
  | FVal.negInf => FVal.posInf
  | FVal.nan => FVal.nan

/-- IEEE-754 division of an f64 outcome by an exactly-represented finite
value `d` (a zero `d` is +0, as produced by `(n-2.)/(n+1.)` at `n = 2`). -/
def FVal.divQ : FVal → ℚ → FVal
  | FVal.nan, _ => FVal.nan
  | FVal.posInf, d => if 0 ≤ d then FVal.posInf else FVal.negInf
  | FVal.negInf, d => if 0 ≤ d then FVal.negInf else FVal.posInf
  | FVal.fin q, d =>
    if d = 0 then
      if q = 0 then FVal.nan else if 0 < q then FVal.posInf else FVal.negInf
    else FVal.fin (q / d)

variable {α : Type} [LinearOrder α] [Inhabited α]

/-- src/xicor.rs `argsort`: indices `0..n` sorted by the key `arr[i]`
(`idcs.sort_unstable_by_key(|&i| &arr[i])`). -/
def argsort (arr : List α) : List ℕ :=
  (List.range arr.length).mergeSort
    (fun i j => decide (arr.getD i default ≤ arr.getD j default))

/-- src/xicor.rs `permute`: `idcs.iter().map(|&i| arr[i]).collect()`. -/
def permute (arr : List α) (idcs : List ℕ) : List α :=
  idcs.map (fun i => arr.getD i default)

/-- Body of the `cumulative_lte` loop: counts start as `pos+1, pos+2, ...`
and, scanning from the right, `counts[i] = counts[i+1]` whenever
`arr[i] == arr[i+1]`. -/
def cumLteAux : List α → ℕ → List ℕ
  | [], _ => []
  | [_], pos => [pos + 1]
  | a :: b :: rest, pos =>
    (if a = b then (cumLteAux (b :: rest) (pos + 1)).headD (pos + 1) else pos + 1)
      :: cumLteAux (b :: rest) (pos + 1)

/-- src/xicor.rs `cumulative_lte`.  On an empty slice the Rust loop bound
`arr.len()-1` underflows and the function panics (modelled as `none`);
otherwise it returns the right-propagated ≤-counts. -/
def cumulative_lte (arr : List α) : Option (List ℕ) :=
  match arr with
  | [] => none
  | _ => some (cumLteAux arr 0)

/-- Body of the `cumulative_gte` loop after position 0: each count is
`n - pos`, except that `counts[i+1] = counts[i]` whenever
`arr[i+1] == arr[i]` (carrying `prev`, the element at the previous
position, and `pc`, the count assigned there). -/
def cumGteAux (n : ℕ) : List α → ℕ → α → ℕ → List ℕ
  | [], _, _, _ => []
  | a :: rest, pos, prev, pc =>
    (if a = prev then pc else n - pos)
      :: cumGteAux n rest (pos + 1) a (if a = prev then pc else n - pos)

/-- Total version of `cumulative_gte`: counts start as `n, n-1, ..., 1` and,
scanning from the left, ties carry the previous count forward. -/
def cumGte (arr : List α) : List ℕ :=
  match arr with
  | [] => []
  | a :: rest => arr.length :: cumGteAux arr.length rest 1 a arr.length

/-- src/xicor.rs `cumulative_gte`.  On an empty slice the Rust loop bound
`arr.len()-1` underflows and the function panics (modelled as `none`). -/
def cumulative_gte (arr : List α) : Option (List ℕ) :=
  match arr with
  | [] => none
  | _ => some (cumGte arr)

/-- The scatter loop `for ((i, r), _) in idcs.into_iter().zip(vals) ...
out[i] = r`, starting from the initial buffer `init` (`vec![0; n]` or
`vec![0.; n]` in the source). -/
def scatter {β : Type} (idcs : List ℕ) (vals : List β) (init : List β) : List β :=
  (idcs.zip vals).foldl (fun acc p => acc.set p.1 p.2) init

/-- `rs.windows(2).map(|win| (win[0]-win[1]).abs()).sum()` over f64 values. -/
def rsumQ : List ℚ → ℚ
  | a :: b :: rest => |a - b| + rsumQ (b :: rest)
  | _ => 0

/-- `usize::abs_diff`. -/
def abs_diff (a b : ℕ) : ℕ :=
  if b ≤ a then a - b else b - a

/-- `rs.windows(2).map(|win| win[0].abs_diff(win[1])).sum()` over usize. -/
def rsumN : List ℕ → ℕ
  | a :: b :: rest => abs_diff a b + rsumN (b :: rest)
  | _ => 0

/-- `let y_ord = permute(y, &argsort(x))` — y reordered into x-ascending
order. -/
def yOrd (x y : List α) : List α :=
  permute y (argsort x)

/-- The second `argsort` inside `xicor`: `argsort(&y_ord)`. -/
def yIdcs (x y : List α) : List ℕ :=
  argsort (yOrd x y)

/-- `let y_ascending = permute(&y_ord, &idcs)`. -/
def yAsc (x y : List α) : List α :=
  permute (yOrd x y) (yIdcs x y)

/-- The f64 buffer `rs` after the scatter loop (`rs[i] = r as f64`). -/
def xiRs (x y : List α) : List ℚ :=
  scatter (yIdcs x y) ((cumLteAux (yAsc x y) 0).map (fun r : ℕ => (r : ℚ)))
    (List.replicate x.length 0)

/-- The f64 buffer `ls` after the scatter loop (`ls[i] = l as f64`). -/
def xiLs (x y : List α) : List ℚ :=
  scatter (yIdcs x y) ((cumGte (yAsc x y)).map (fun l : ℕ => (l : ℚ)))
    (List.replicate x.length 0)

/-- `rsum` as computed in src/xicor.rs. -/
def xiRsum (x y : List α) : ℚ :=
  rsumQ (xiRs x y)

/-- `lsum` as computed in src/xicor.rs: `ls.into_iter().map(|l| l*(n-l)).sum()`
with `n = x.len() as f64`. -/
def xiLsum (x y : List α) : ℚ :=
  ((xiLs x y).map (fun l => l * ((x.length : ℚ) - l))).sum

/-- src/xicor.rs `xicor`: asserts equal lengths (panic modelled as `none`),
runs the rank pipeline (whose tie counters panic on empty input), and
returns `1. - n*rsum/(2.*lsum)`. -/
def xicor (x y : List α) : Option FVal :=
  if x.length = y.length then
    match cumulative_lte (yAsc x y), cumulative_gte (yAsc x y) with
    | some _, some _ =>
      some (FVal.oneSub (xiDiv ((x.length : ℚ) * xiRsum x y) (2 * xiLsum x y)))
    | _, _ => none
  else none

/-- src/xicor.rs `xicor_norm`: `xicor(x, y) / lim` with
`lim = (n-2.)/(n+1.)`, `n = x.len() as f64`. -/
def xicor_norm (x y : List α) : Option FVal :=
  (xicor x y).map (fun v =>
    FVal.divQ v (((x.length : ℚ) - 2) / ((x.length : ℚ) + 1)))

/-- src/xicor.rs `xicorf`: floats reinterpreted as an `Ord` wrapper; NaN-free
float inputs are modelled as their exact rational values. -/
def xicorf (x y : List ℚ) : Option FVal :=
  xicor x y

/-- src/xicor.rs `xicorf_norm`. -/
def xicorf_norm (x y : List ℚ) : Option FVal :=
  xicor_norm x y

/-- The usize buffer `rs` of the src/lib.rs revision of `xicor`. -/
def xiRsN (x y : List α) : List ℕ :=
  scatter (yIdcs x y) (cumLteAux (yAsc x y) 0) (List.replicate x.length 0)

/-- The usize buffer `ls` of the src/lib.rs revision of `xicor`. -/
def xiLsN (x y : List α) : List ℕ :=
  scatter (yIdcs x y) (cumGte (yAsc x y)) (List.replicate x.length 0)

/-- src/lib.rs `xicor`: same pipeline, but `rsum` and `lsum` accumulated as
`usize` and converted to f64 only in `1.-(n as f64)*(rsum as f64)/(2.*lsum
as f64)`.  (`l*(n-l)` does not underflow because every count `l` is at most
`n`; this is proved below.) -/
def xicorInt (x y : List α) : Option FVal :=
  if x.length = y.length then
    match cumulative_lte (yAsc x y), cumulative_gte (yAsc x y) with
    | some _, some _ =>
      some (FVal.oneSub (xiDiv
        ((x.length : ℚ) * ((rsumN (xiRsN x y) : ℕ) : ℚ))
        (2 * ((((xiLsN x y).map (fun l => l * (x.length - l))).sum : ℕ) : ℚ))))
    | _, _ => none
  else none

/-- Modelled from the spec, section 4.4 step 4: ranks scattered back by the
rule `R[p2[k]] = R_sorted[k]`, read as a gather `R[i] = R_sorted[k]` for the
unique `k` with `p2[k] = i`. -/
def specR (x y : List α) : List ℚ :=
  (List.range x.length).map
    (fun i => ((cumLteAux (yAsc x y) 0).map (fun r : ℕ => (r : ℚ))).getD
      ((yIdcs x y).indexOf i) 0)

/-- Modelled from the spec, section 4.4 step 4, for the `L` ranks. -/
def specL (x y : List α) : List ℚ :=
  (List.range x.length).map
    (fun i => ((cumGte (yAsc x y)).map (fun l : ℕ => (l : ℚ))).getD
      ((yIdcs x y).indexOf i) 0)

/-- Modelled from the spec, section 4.4 step 5:
`rsum = Σ_i |R[i] - R[(i+1)]|` over `n - 1` terms. -/
def specRsum (x y : List α) : ℚ :=
  ∑ i in Finset.range (x.length - 1),
    |(specR x y).getD i 0 - (specR x y).getD (i + 1) 0|

/-- Modelled from the spec, section 4.4 step 6: `lsum = Σ_i L[i]*(n - L[i])`. -/
def specLsum (x y : List α) : ℚ :=
  ∑ i in Finset.range x.length,
    (specL x y).getD i 0 * ((x.length : ℚ) - (specL x y).getD i 0)

/-- Modelled from the spec, section 4.4 step 7: `xi = 1 - n*rsum/(2*lsum)`,
with `lsum == 0` defined as returning NaN. -/
def xicorSpec (x y : List α) : FVal :=
  if specLsum x y = 0 then FVal.nan
  else FVal.fin (1 - (x.length : ℚ) * specRsum x y / (2 * specLsum x y))

/-! ### Basic structure of `argsort` and `permute` -/

lemma length_permute (arr : List α) (idcs : List ℕ) :
    (permute arr idcs).length = idcs.length :=
  List.length_map _ _

lemma argsort_perm_range (arr : List α) :
    (argsort arr).Perm (List.range arr.length) :=
  List.mergeSort_perm _ _

lemma length_argsort (arr : List α) : (argsort arr).length = arr.length := by
  simpa using (argsort_perm_range arr).length_eq

lemma argsort_nodup (arr : List α) : (argsort arr).Nodup :=
  (argsort_perm_range arr).symm.nodup (List.nodup_range _)

lemma mem_argsort (arr : List α) (i : ℕ) : i ∈ argsort arr ↔ i < arr.length := by
  rw [(argsort_perm_range arr).mem_iff, List.mem_range]

lemma argsort_pairwise (arr : List α) :
    (argsort arr).Pairwise (fun i j => arr.getD i default ≤ arr.getD j default) := by
  have h := @List.sorted_mergeSort ℕ
    (fun i j => decide (arr.getD i default ≤ arr.getD j default))
    (fun a b c hab hbc => by
      simp only [decide_eq_true_eq] at hab hbc ⊢
      exact le_trans hab hbc)
    (fun a b => by
      simpa using le_total (arr.getD a default) (arr.getD b default))
    (List.range arr.length)
  exact h.imp (fun hab => by simpa using hab)

lemma sorted_permute_argsort (arr : List α) :
    (permute arr (argsort arr)).Sorted (· ≤ ·) := by
  unfold permute
  exact List.pairwise_map.mpr (argsort_pairwise arr)

lemma map_getD_range (l : List α) :
    (List.range l.length).map (fun i => l.getD i default) = l := by
  apply List.ext_getElem?
  intro n
  by_cases hn : n < l.length
  · rw [List.getElem?_map, List.getElem?_range hn, Option.map_some',
      List.getD_eq_getElem _ _ hn, List.getElem?_eq_getElem hn]
  · rw [List.getElem?_map, List.getElem?_eq_none (by simpa using Nat.le_of_not_lt hn),
      List.getElem?_eq_none (Nat.le_of_not_lt hn), Option.map_none']

lemma permute_argsort_perm (arr : List α) :
    (permute arr (argsort arr)).Perm arr := by
  unfold permute
  have h := (argsort_perm_range arr).map (fun i => arr.getD i default)
  rw [map_getD_range arr] at h
  exact h

/-! ### Pointwise behaviour of the tie counters -/

lemma cumLteAux_length (l : List α) (pos : ℕ) :
    (cumLteAux l pos).length = l.length := by
  induction l generalizing pos with
  | nil => rfl
  | cons a rest ih =>
    cases rest with
    | nil => rfl
    | cons b rest2 => simp [cumLteAux, ih]

lemma cumLteAux_cons₂ (a b : α) (rest : List α) (pos : ℕ) :
    cumLteAux (a :: b :: rest) pos =
      (if a = b then (cumLteAux (b :: rest) (pos + 1)).headD (pos + 1) else pos + 1)
        :: cumLteAux (b :: rest) (pos + 1) :=
  rfl

lemma cumGteAux_cons (n : ℕ) (a : α) (rest : List α) (pos : ℕ) (prev : α) (pc : ℕ) :
    cumGteAux n (a :: rest) pos prev pc =
      (if a = prev then pc else n - pos)
        :: cumGteAux n rest (pos + 1) a (if a = prev then pc else n - pos) :=
  rfl

lemma cumLteAux_last (l : List α) (pos k : ℕ) (hk : k + 1 = l.length) :
    (cumLteAux l pos)[k]? = some (pos + k + 1) := by
  induction l generalizing pos k with
  | nil => simp at hk
  | cons a rest ih =>
    cases rest with
    | nil =>
      have hk0 : k = 0 := by simpa using hk
      subst hk0
      simp [cumLteAux]
    | cons b rest2 =>
      obtain ⟨m, rfl⟩ : ∃ m, k = m + 1 := ⟨rest2.length, by simp at hk; omega⟩
      rw [cumLteAux_cons₂, List.getElem?_cons_succ, ih (pos + 1) m (by simp at hk ⊢; omega)]
      congr 2
      omega

lemma cumLteAux_step (l : List α) (pos k : ℕ) (hk : k + 1 < l.length) :
    (cumLteAux l pos)[k]? =
      if l[k]? = l[k + 1]? then (cumLteAux l pos)[k + 1]?
      else some (pos + k + 1) := by
  induction l generalizing pos k with
  | nil => simp at hk
  | cons a rest ih =>
    cases rest with
    | nil => simp at hk
    | cons b rest2 =>
      cases k with
      | zero =>
        rw [cumLteAux_cons₂]
        simp only [List.getElem?_cons_zero, List.getElem?_cons_succ, Option.some.injEq]
        by_cases hab : a = b
        · have hne : cumLteAux (b :: rest2) (pos + 1) ≠ [] := by
            intro hcontra
            have hlen := cumLteAux_length (b :: rest2) (pos + 1)
            rw [hcontra] at hlen
            simp at hlen
          obtain ⟨c, t, ht⟩ := List.exists_cons_of_ne_nil hne
          simp [hab, ht]
        · simp [hab]
      | succ m =>
        rw [cumLteAux_cons₂]
        simp only [List.getElem?_cons_succ]
        rw [ih (pos + 1) m (by simp at hk ⊢; omega)]
        have harith : pos + 1 + m + 1 = pos + (m + 1) + 1 := by omega
        rw [harith, List.getElem?_cons_succ]

lemma cumGteAux_length (n : ℕ) (l : List α) (pos : ℕ) (prev : α) (pc : ℕ) :
    (cumGteAux n l pos prev pc).length = l.length := by
  induction l generalizing pos prev pc with
  | nil => rfl
  | cons a rest ih => simp [cumGteAux, ih]

lemma cumGteAux_zero (n : ℕ) (a : α) (rest : List α) (pos : ℕ) (prev : α) (pc : ℕ) :
    (cumGteAux n (a :: rest) pos prev pc)[0]? =
      some (if a = prev then pc else n - pos) := by
  rw [cumGteAux_cons, List.getElem?_cons_zero]

lemma cumGteAux_step (l : List α) (n pos : ℕ) (prev : α) (pc k : ℕ)
    (hk : k + 1 < l.length) :
    (cumGteAux n l pos prev pc)[k + 1]? =
      if l[k + 1]? = l[k]? then (cumGteAux n l pos prev pc)[k]?
      else some (n - (pos + k + 1)) := by
  induction l generalizing pos prev pc k with
  | nil => simp at hk
  | cons a rest ih =>
    cases rest with
    | nil => simp at hk
    | cons b rest2 =>
      cases k with
      | zero =>
        rw [cumGteAux_cons, List.getElem?_cons_succ, cumGteAux_zero]
        simp only [List.getElem?_cons_zero, List.getElem?_cons_succ, Option.some.injEq]
        by_cases hba : b = a
        · simp [hba]
        · simp [hba]
      | succ m =>
        rw [cumGteAux_cons]
        simp only [List.getElem?_cons_succ]
        rw [ih (pos + 1) a _ m (by simp at hk ⊢; omega)]
        simp only [List.getElem?_cons_succ]
        have harith : pos + 1 + m + 1 = pos + (m + 1) + 1 := by omega
        rw [harith]

lemma cumGte_length (arr : List α) : (cumGte arr).length = arr.length := by
  cases arr with
  | nil => rfl
  | cons a rest => simp [cumGte, cumGteAux_length]

lemma cumGte_cons (a : α) (rest : List α) :
    cumGte (a :: rest) =
      (a :: rest).length :: cumGteAux (a :: rest).length rest 1 a (a :: rest).length :=
  rfl

lemma cumGte_zero (a : α) (rest : List α) :
    (cumGte (a :: rest))[0]? = some (a :: rest).length := by
  rw [cumGte_cons, List.getElem?_cons_zero]

lemma cumGte_step (arr : List α) (k : ℕ) (hk : k + 1 < arr.length) :
    (cumGte arr)[k + 1]? =
      if arr[k + 1]? = arr[k]? then (cumGte arr)[k]?
      else some (arr.length - (k + 1)) := by
  cases arr with
  | nil => simp at hk
  | cons a rest =>
    cases rest with
    | nil => simp at hk
    | cons b rest2 =>
      cases k with
      | zero =>
        rw [cumGte_cons]
        simp only [List.getElem?_cons_succ, List.getElem?_cons_zero, Option.some.injEq]
        rw [cumGteAux_zero]
        by_cases hba : b = a
        · simp [hba]
        · simp [hba]
      | succ m =>
        rw [cumGte_cons]
        simp only [List.getElem?_cons_succ]
        rw [cumGteAux_step (b :: rest2) _ 1 a _ m (by simp at hk ⊢; omega)]
        simp only [List.getElem?_cons_succ]
        have harith : (1 : ℕ) + m + 1 = m + 1 + 1 := by omega
        rw [harith]

/-! ### Tie counters on constant runs and on runs with no ties -/

lemma cumLteAux_const (l : List α) (pos : ℕ) (h : l.Chain' (· = ·)) :
    cumLteAux l pos = List.replicate l.length (pos + l.length) := by
  induction l generalizing pos with
  | nil => rfl
  | cons a rest ih =>
    cases rest with
    | nil => simp [cumLteAux]
    | cons b rest2 =>
      obtain ⟨hab, hchain⟩ := List.chain'_cons.mp h
      rw [cumLteAux_cons₂, if_pos hab, ih (pos + 1) hchain]
      have hl1 : (b :: rest2).length = rest2.length + 1 := rfl
      have hl2 : (a :: b :: rest2).length = rest2.length + 2 := rfl
      rw [hl1, hl2, List.replicate_succ, List.headD_cons]
      have hv : pos + 1 + (rest2.length + 1) = pos + (rest2.length + 2) := by omega
      rw [hv]
      rfl

lemma cumGteAux_all_n (l : List α) (n pos : ℕ) (prev : α) (pc : ℕ)
    (hn : 1 ≤ n) (hpos : 1 ≤ pos)
    (h : ∀ c ∈ cumGteAux n l pos prev pc, c = n) :
    (prev :: l).Chain' (· = ·) := by
  induction l generalizing pos prev pc with
  | nil => simp
  | cons a rest ih =>
    have hc : (if a = prev then pc else n - pos) = n := by
      apply h
      rw [cumGteAux_cons]
      exact List.mem_cons_self _ _
    have hap : a = prev := by
      by_contra hne
      rw [if_neg hne] at hc
      omega
    refine List.chain'_cons.mpr ⟨hap.symm, ?_⟩
    apply ih (pos + 1) a (if a = prev then pc else n - pos) (by omega)
    intro c hcmem
    apply h
    rw [cumGteAux_cons]
    exact List.mem_cons_of_mem _ hcmem

lemma cumGte_all_n (arr : List α)
    (h : ∀ c ∈ cumGte arr, c = arr.length) :
    arr.Chain' (· = ·) := by
  cases arr with
  | nil => simp
  | cons a rest =>
    have := cumGteAux_all_n rest (a :: rest).length 1 a (a :: rest).length
      (by simp) (by omega)
      (fun c hc => h c (by rw [cumGte_cons]; exact List.mem_cons_of_mem _ hc))
    exact this

lemma cumGteAux_mem_bounds (l : List α) {n : ℕ} (pos : ℕ) (prev : α) (pc : ℕ)
    (h1 : 1 ≤ pc) (h2 : pc ≤ n) (h3 : pos + l.length ≤ n) :
    ∀ c ∈ cumGteAux n l pos prev pc, 1 ≤ c ∧ c ≤ n := by
  induction l generalizing pos prev pc with
  | nil => simp [cumGteAux]
  | cons a rest ih =>
    intro c hc
    rw [cumGteAux_cons] at hc
    have hlen : (a :: rest).length = rest.length + 1 := rfl
    rw [hlen] at h3
    have hc0 : 1 ≤ (if a = prev then pc else n - pos) ∧
        (if a = prev then pc else n - pos) ≤ n := by
      by_cases hap : a = prev
      · rw [if_pos hap]; exact ⟨h1, h2⟩
      · rw [if_neg hap]; omega
    rcases List.mem_cons.mp hc with hc1 | hc2
    · rw [hc1]; exact hc0
    · exact ih (pos + 1) a _ hc0.1 hc0.2 (by omega) c hc2

lemma cumGte_mem_bounds (arr : List α) :
    ∀ c ∈ cumGte arr, 1 ≤ c ∧ c ≤ arr.length := by
  cases arr with
  | nil => simp [cumGte]
  | cons a rest =>
    intro c hc
    rw [cumGte_cons] at hc
    rcases List.mem_cons.mp hc with hc1 | hc2
    · rw [hc1]; constructor <;> simp
    · exact cumGteAux_mem_bounds rest 1 a (a :: rest).length
        (by simp) (by omega) (by simp; omega) c hc2

lemma cumLteAux_of_ne (l : List α) (pos : ℕ) (h : l.Chain' (· ≠ ·)) :
    cumLteAux l pos = List.range' (pos + 1) l.length := by
  induction l generalizing pos with
  | nil => rfl
  | cons a rest ih =>
    cases rest with
    | nil => simp [cumLteAux]
    | cons b rest2 =>
      obtain ⟨hab, hchain⟩ := List.chain'_cons.mp h
      rw [cumLteAux_cons₂, if_neg hab, ih (pos + 1) hchain]
      have hlen : (a :: b :: rest2).length = (b :: rest2).length + 1 := rfl
      rw [hlen, List.range'_succ]

lemma cumGteAux_of_ne (l : List α) (n pos : ℕ) (prev : α) (pc : ℕ)
    (h : (prev :: l).Chain' (· ≠ ·)) :
    cumGteAux n l pos prev pc = (List.range' pos l.length).map (fun k => n - k) := by
  induction l generalizing pos prev pc with
  | nil => rfl
  | cons a rest ih =>
    obtain ⟨hpa, hchain⟩ := List.chain'_cons.mp h
    rw [cumGteAux_cons, if_neg (fun hc => hpa hc.symm), ih (pos + 1) a _ hchain]
    have hlen : (a :: rest).length = rest.length + 1 := rfl
    rw [hlen, List.range'_succ, List.map_cons]

lemma cumGte_of_ne (arr : List α) (h : arr.Chain' (· ≠ ·)) :
    cumGte arr = (List.range' 0 arr.length).map (fun k => arr.length - k) := by
  cases arr with
  | nil => rfl
  | cons a rest =>
    rw [cumGte_cons, cumGteAux_of_ne rest _ 1 a _ h]
    have hlen : (a :: rest).length = rest.length + 1 := rfl
    rw [hlen, List.range'_succ, List.map_cons]
    simp

/-! ### The scatter loop -/

lemma foldl_set_length {β : Type} (ps : List (ℕ × β)) (init : List β) :
    (ps.foldl (fun acc p => acc.set p.1 p.2) init).length = init.length := by
  induction ps generalizing init with
  | nil => rfl
  | cons p rest ih => rw [List.foldl_cons, ih, List.length_set]

lemma scatter_length {β : Type} (idcs : List ℕ) (vals : List β) (init : List β) :
    (scatter idcs vals init).length = init.length :=
  foldl_set_length _ _

lemma foldl_set_getElem?_not_mem {β : Type} (ps : List (ℕ × β)) (init : List β)
    (i : ℕ) (h : ∀ p ∈ ps, p.1 ≠ i) :
    (ps.foldl (fun acc p => acc.set p.1 p.2) init)[i]? = init[i]? := by
  induction ps generalizing init with
  | nil => rfl
  | cons p rest ih =>
    rw [List.foldl_cons, ih _ (fun q hq => h q (List.mem_cons_of_mem _ hq)),
      List.getElem?_set_ne (h p (List.mem_cons_self _ _))]

lemma scatter_getElem?_not_mem {β : Type} (idcs : List ℕ) (vals : List β)
    (init : List β) (i : ℕ) (h : i ∉ idcs) :
    (scatter idcs vals init)[i]? = init[i]? := by
  apply foldl_set_getElem?_not_mem
  intro p hp hcontra
  exact h (hcontra ▸ (List.of_mem_zip hp).1)

lemma scatter_getElem?_mem {β : Type} (idcs : List ℕ) (vals : List β)
    (init : List β) (i : ℕ) (hnd : idcs.Nodup) (hmem : i ∈ idcs)
    (hlen : idcs.length ≤ vals.length) (hi : i < init.length) :
    (scatter idcs vals init)[i]? = vals[idcs.indexOf i]? := by
  induction idcs generalizing vals init with
  | nil => simp at hmem
  | cons j rest ih =>
    cases vals with
    | nil => simp at hlen
    | cons v vs =>
      have hstep : scatter (j :: rest) (v :: vs) init = scatter rest vs (init.set j v) :=
        rfl
      rw [hstep]
      by_cases hij : i = j
      · subst hij
        have hnotmem : i ∉ rest := (List.nodup_cons.mp hnd).1
        rw [scatter_getElem?_not_mem rest vs _ i hnotmem,
          List.getElem?_set_self hi, List.indexOf_cons_self, List.getElem?_cons_zero]
      · have hmem2 : i ∈ rest := by
          rcases List.mem_cons.mp hmem with hcontra | hok
          · exact absurd hcontra hij
          · exact hok
        rw [ih vs (init.set j v) (List.nodup_cons.mp hnd).2 hmem2
            (by simpa using hlen) (by rwa [List.length_set]),
          List.indexOf_cons_ne _ (fun hc => hij hc.symm),
          Nat.succ_eq_add_one, List.getElem?_cons_succ]

lemma foldl_set_mem {β : Type} (ps : List (ℕ × β)) (init : List β) (c : β)
    (hc : c ∈ ps.foldl (fun acc p => acc.set p.1 p.2) init) :
    c ∈ init ∨ ∃ p ∈ ps, p.2 = c := by
  induction ps generalizing init with
  | nil => exact Or.inl hc
  | cons p rest ih =>
    rw [List.foldl_cons] at hc
    rcases ih _ hc with hin | ⟨q, hq, hqc⟩
    · rcases List.mem_or_eq_of_mem_set hin with h1 | h2
      · exact Or.inl h1
      · exact Or.inr ⟨p, List.mem_cons_self _ _, h2.symm⟩
    · exact Or.inr ⟨q, List.mem_cons_of_mem _ hq, hqc⟩

lemma scatter_mem {β : Type} (idcs : List ℕ) (vals : List β) (init : List β)
    (c : β) (hc : c ∈ scatter idcs vals init) : c ∈ init ∨ c ∈ vals := by
  rcases foldl_set_mem _ _ _ hc with h1 | ⟨p, hp, hpc⟩
  · exact Or.inl h1
  · exact Or.inr (hpc ▸ (List.of_mem_zip hp).2)

lemma foldl_set_comp_map {β γ : Type} (f : β → γ) (ps : List (ℕ × β))
    (init : List β) :
    ps.foldl (fun acc p => acc.set p.1 (f p.2)) (init.map f) =
      (ps.foldl (fun acc p => acc.set p.1 p.2) init).map f := by
  induction ps generalizing init with
  | nil => rfl
  | cons p rest ih =>
    rw [List.foldl_cons, List.foldl_cons, ← List.map_set, ih]

lemma scatter_map {β γ : Type} (f : β → γ) (idcs : List ℕ) (vals : List β)
    (init : List β) :
    scatter idcs (vals.map f) (init.map f) = (scatter idcs vals init).map f := by
  unfold scatter
  rw [List.zip_map_right, List.foldl_map]
  exact foldl_set_comp_map f (idcs.zip vals) init

lemma scatter_range {β : Type} (n : ℕ) (vals : List β) (init : List β)
    (hv : vals.length = n) (hi : init.length = n) :
    scatter (List.range n) vals init = vals := by
  apply List.ext_getElem?
  intro i
  by_cases hin : i < n
  · rw [scatter_getElem?_mem _ _ _ _ (List.nodup_range n) (List.mem_range.mpr hin)
      (by simp [hv]) (by rwa [hi])]
    congr 1
    have := List.indexOf_getElem (List.nodup_range n) i (by simpa using hin)
    simpa using this
  · rw [List.getElem?_eq_none, List.getElem?_eq_none]
    · omega
    · rw [scatter_length, hi]; omega

/-! ### Sums: windows-of-two, list sums as indexed sums, closed forms -/

lemma rsumQ_cons₂ (a b : ℚ) (rest : List ℚ) :
    rsumQ (a :: b :: rest) = |a - b| + rsumQ (b :: rest) :=
  rfl

lemma rsumN_cons₂ (a b : ℕ) (rest : List ℕ) :
    rsumN (a :: b :: rest) = abs_diff a b + rsumN (b :: rest) :=
  rfl

lemma cast_abs_diff (a b : ℕ) : ((abs_diff a b : ℕ) : ℚ) = |(a : ℚ) - (b : ℚ)| := by
  unfold abs_diff
  by_cases hba : b ≤ a
  · rw [if_pos hba, Nat.cast_sub hba,
      abs_of_nonneg (sub_nonneg.mpr (Nat.cast_le.mpr hba))]
  · have hab : a ≤ b := le_of_not_le hba
    rw [if_neg hba, Nat.cast_sub hab,
      abs_of_nonpos (sub_nonpos.mpr (Nat.cast_le.mpr hab)), neg_sub]

lemma rsumQ_map_cast (l : List ℕ) :
    rsumQ (l.map (fun r : ℕ => (r : ℚ))) = (rsumN l : ℚ) := by
  induction l with
  | nil => simp [rsumQ, rsumN]
  | cons a rest ih =>
    cases rest with
    | nil => simp [rsumQ, rsumN]
    | cons b rest2 =>
      rw [List.map_cons, List.map_cons, rsumQ_cons₂, ← List.map_cons,
        ih, rsumN_cons₂, Nat.cast_add, cast_abs_diff]

lemma rsumQ_eq_finset (l : List ℚ) :
    rsumQ l = ∑ i in Finset.range (l.length - 1), |l.getD i 0 - l.getD (i + 1) 0| := by
  induction l with
  | nil => simp [rsumQ]
  | cons a rest ih =>
    cases rest with
    | nil => simp [rsumQ]
    | cons b rest2 =>
      rw [rsumQ_cons₂, ih]
      have hlen : (a :: b :: rest2).length - 1 = ((b :: rest2).length - 1) + 1 := by
        simp
      rw [hlen, Finset.sum_range_succ']
      simp only [List.getD_cons_succ, List.getD_cons_zero]
      ring

lemma map_sum_eq_finset (l : List ℚ) (g : ℚ → ℚ) :
    (l.map g).sum = ∑ i in Finset.range l.length, g (l.getD i 0) := by
  induction l with
  | nil => simp
  | cons a rest ih =>
    rw [List.map_cons, List.sum_cons, ih]
    have hlen : (a :: rest).length = rest.length + 1 := rfl
    rw [hlen, Finset.sum_range_succ']
    simp only [List.getD_cons_succ, List.getD_cons_zero]
    ring

lemma rsumQ_replicate (n : ℕ) (c : ℚ) : rsumQ (List.replicate n c) = 0 := by
  induction n with
  | zero => rfl
  | succ m ih =>
    cases m with
    | zero => rfl
    | succ m2 =>
      rw [List.replicate_succ, List.replicate_succ, rsumQ_cons₂,
        ← List.replicate_succ, ih]
      simp

lemma rsumN_range' (m s : ℕ) : rsumN (List.range' s m) = m - 1 := by
  induction m generalizing s with
  | zero => rfl
  | succ k ih =>
    cases k with
    | zero => rfl
    | succ m2 =>
      rw [List.range'_succ, List.range'_succ, rsumN_cons₂, ← List.range'_succ,
        ih (s + 1)]
      have habs : abs_diff s (s + 1) = 1 := by
        unfold abs_diff
        rw [if_neg (by omega)]
        omega
      rw [habs]
      omega

lemma sum_range'_lc (m : ℕ) (c : ℚ) :
    ((List.range' 1 m).map (fun l : ℕ => (l : ℚ) * (c - (l : ℚ)))).sum =
      c * m * (m + 1) / 2 - m * (m + 1) * (2 * m + 1) / 6 := by
  induction m with
  | zero => simp
  | succ k ih =>
    rw [List.range'_concat, List.map_append, List.sum_append, ih]
    simp only [List.map_cons, List.map_nil, List.sum_cons, List.sum_nil]
    push_cast
    ring

/-! ### Pipeline-level facts -/

lemma yOrd_length (x y : List α) : (yOrd x y).length = x.length := by
  unfold yOrd
  rw [length_permute, length_argsort]

lemma yIdcs_perm (x y : List α) : (yIdcs x y).Perm (List.range x.length) := by
  unfold yIdcs
  have h := argsort_perm_range (yOrd x y)
  rwa [yOrd_length] at h

lemma yIdcs_nodup (x y : List α) : (yIdcs x y).Nodup :=
  argsort_nodup _

lemma yIdcs_length (x y : List α) : (yIdcs x y).length = x.length := by
  unfold yIdcs
  rw [length_argsort, yOrd_length]

lemma mem_yIdcs (x y : List α) (i : ℕ) : i ∈ yIdcs x y ↔ i < x.length := by
  rw [(yIdcs_perm x y).mem_iff, List.mem_range]

lemma yAsc_length (x y : List α) : (yAsc x y).length = x.length := by
  unfold yAsc
  rw [length_permute, yIdcs_length]

lemma yAsc_sorted (x y : List α) : (yAsc x y).Sorted (· ≤ ·) :=
  sorted_permute_argsort (yOrd x y)

lemma yAsc_perm_yOrd (x y : List α) : (yAsc x y).Perm (yOrd x y) :=
  permute_argsort_perm (yOrd x y)

lemma xiRs_getElem? (x y : List α) (i : ℕ) (hi : i < x.length) :
    (xiRs x y)[i]? =
      ((cumLteAux (yAsc x y) 0).map
        (fun r : ℕ => (r : ℚ)))[(yIdcs x y).indexOf i]? := by
  unfold xiRs
  apply scatter_getElem?_mem
  · exact yIdcs_nodup x y
  · exact (mem_yIdcs x y i).mpr hi
  · rw [List.length_map, cumLteAux_length, yAsc_length, yIdcs_length]
  · rw [List.length_replicate]
    exact hi

lemma xiLs_getElem? (x y : List α) (i : ℕ) (hi : i < x.length) :
    (xiLs x y)[i]? =
      ((cumGte (yAsc x y)).map
        (fun l : ℕ => (l : ℚ)))[(yIdcs x y).indexOf i]? := by
  unfold xiLs
  apply scatter_getElem?_mem
  · exact yIdcs_nodup x y
  · exact (mem_yIdcs x y i).mpr hi
  · rw [List.length_map, cumGte_length, yAsc_length, yIdcs_length]
  · rw [List.length_replicate]
    exact hi

lemma indexOf_yIdcs_lt (x y : List α) (i : ℕ) (hi : i < x.length) :
    (yIdcs x y).indexOf i < x.length := by
  rw [← yIdcs_length x y]
  exact List.indexOf_lt_length.mpr ((mem_yIdcs x y i).mpr hi)

lemma xiRs_length (x y : List α) : (xiRs x y).length = x.length := by
  unfold xiRs
  rw [scatter_length, List.length_replicate]

lemma xiLs_length (x y : List α) : (xiLs x y).length = x.length := by
  unfold xiLs
  rw [scatter_length, List.length_replicate]

lemma xiRs_eq_specR (x y : List α) : xiRs x y = specR x y := by
  apply List.ext_getElem?
  intro i
  by_cases hi : i < x.length
  · have hk : (yIdcs x y).indexOf i <
        ((cumLteAux (yAsc x y) 0).map (fun r : ℕ => (r : ℚ))).length := by
      rw [List.length_map, cumLteAux_length, yAsc_length]
      exact indexOf_yIdcs_lt x y i hi
    have hk' : (yIdcs x y).indexOf i < (cumLteAux (yAsc x y) 0).length := by
      rw [cumLteAux_length, yAsc_length]
      exact indexOf_yIdcs_lt x y i hi
    rw [xiRs_getElem? x y i hi]
    unfold specR
    rw [List.getElem?_map, List.getElem?_map, List.getElem?_range hi,
      Option.map_some', List.getElem?_eq_getElem hk', Option.map_some',
      List.getD_eq_getElem _ _ hk, List.getElem_map]
  · rw [List.getElem?_eq_none, List.getElem?_eq_none]
    · unfold specR
      rw [List.length_map, List.length_range]
      omega
    · rw [xiRs_length]
      omega

lemma xiLs_eq_specL (x y : List α) : xiLs x y = specL x y := by
  apply List.ext_getElem?
  intro i
  by_cases hi : i < x.length
  · have hk : (yIdcs x y).indexOf i <
        ((cumGte (yAsc x y)).map (fun l : ℕ => (l : ℚ))).length := by
      rw [List.length_map, cumGte_length, yAsc_length]
      exact indexOf_yIdcs_lt x y i hi
    have hk' : (yIdcs x y).indexOf i < (cumGte (yAsc x y)).length := by
      rw [cumGte_length, yAsc_length]
      exact indexOf_yIdcs_lt x y i hi
    rw [xiLs_getElem? x y i hi]
    unfold specL
    rw [List.getElem?_map, List.getElem?_map, List.getElem?_range hi,
      Option.map_some', List.getElem?_eq_getElem hk', Option.map_some',
      List.getD_eq_getElem _ _ hk, List.getElem_map]
  · rw [List.getElem?_eq_none, List.getElem?_eq_none]
    · unfold specL
      rw [List.length_map, List.length_range]
      omega
    · rw [xiLs_length]
      omega

lemma xiRsum_eq_specRsum (x y : List α) : xiRsum x y = specRsum x y := by
  unfold xiRsum specRsum
  rw [rsumQ_eq_finset, xiRs_eq_specR, ← xiRs_eq_specR x y, xiRs_length,
    xiRs_eq_specR]

lemma xiLsum_eq_specLsum (x y : List α) : xiLsum x y = specLsum x y := by
  unfold xiLsum specLsum
  rw [map_sum_eq_finset, xiLs_eq_specL, ← xiLs_eq_specL x y, xiLs_length,
    xiLs_eq_specL]

lemma cumulative_lte_cons (a : α) (rest : List α) :
    cumulative_lte (a :: rest) = some (cumLteAux (a :: rest) 0) :=
  rfl

lemma cumulative_gte_cons (a : α) (rest : List α) :
    cumulative_gte (a :: rest) = some (cumGte (a :: rest)) :=
  rfl

lemma xicor_eq_some (x y : List α) (h : x.length = y.length) (hx : x ≠ []) :
    xicor x y = some (FVal.oneSub
      (xiDiv ((x.length : ℚ) * xiRsum x y) (2 * xiLsum x y))) := by
  have hne : yAsc x y ≠ [] := by
    intro hcontra
    apply hx
    have hlen := yAsc_length x y
    rw [hcontra] at hlen
    exact List.length_eq_zero.mp hlen.symm
  obtain ⟨a, rest, hcons⟩ := List.exists_cons_of_ne_nil hne
  unfold xicor
  rw [if_pos h, hcons, cumulative_lte_cons, cumulative_gte_cons]

lemma xicor_eq_none_of_length_ne (x y : List α) (h : x.length ≠ y.length) :
    xicor x y = none := by
  unfold xicor
  rw [if_neg h]

/-! ### A zero `lsum` forces all ties, hence a zero `rsum` -/

lemma xiLs_getD (x y : List α) (i : ℕ) (hi : i < x.length) :
    (xiLs x y).getD i 0 =
      (((cumGte (yAsc x y)).getD ((yIdcs x y).indexOf i) 0 : ℕ) : ℚ) := by
  have hk' : (yIdcs x y).indexOf i < (cumGte (yAsc x y)).length := by
    rw [cumGte_length, yAsc_length]
    exact indexOf_yIdcs_lt x y i hi
  rw [List.getD_eq_getElem?_getD, xiLs_getElem? x y i hi, List.getElem?_map,
    List.getElem?_eq_getElem hk', Option.map_some', Option.getD_some,
    List.getD_eq_getElem _ _ hk']

lemma cumGte_all_of_lsum_zero (x y : List α) (hl : xiLsum x y = 0) :
    ∀ c ∈ cumGte (yAsc x y), c = x.length := by
  intro c hc
  have hfin : xiLsum x y = ∑ i in Finset.range x.length,
      (xiLs x y).getD i 0 * ((x.length : ℚ) - (xiLs x y).getD i 0) := by
    unfold xiLsum
    rw [map_sum_eq_finset, xiLs_length]
  have hnonneg : ∀ i ∈ Finset.range x.length,
      0 ≤ (xiLs x y).getD i 0 * ((x.length : ℚ) - (xiLs x y).getD i 0) := by
    intro i hi
    rw [Finset.mem_range] at hi
    have hidxlt : (yIdcs x y).indexOf i < (cumGte (yAsc x y)).length := by
      rw [cumGte_length, yAsc_length]
      exact indexOf_yIdcs_lt x y i hi
    rw [xiLs_getD x y i hi, List.getD_eq_getElem _ _ hidxlt]
    have hb := cumGte_mem_bounds (yAsc x y) _ (List.getElem_mem hidxlt)
    rw [yAsc_length] at hb
    exact mul_nonneg (Nat.cast_nonneg _)
      (sub_nonneg.mpr (by exact_mod_cast hb.2))
  have hzero := (Finset.sum_eq_zero_iff_of_nonneg hnonneg).mp
    (by rw [← hfin]; exact hl)
  obtain ⟨k, hk, hck⟩ := List.mem_iff_getElem.mp hc
  have hklen : k < (yIdcs x y).length := by
    rw [yIdcs_length]
    rw [cumGte_length, yAsc_length] at hk
    exact hk
  have hi : (yIdcs x y)[k] < x.length :=
    (mem_yIdcs x y _).mp (List.getElem_mem hklen)
  have hidx : (yIdcs x y).indexOf ((yIdcs x y)[k]) = k :=
    List.indexOf_getElem (yIdcs_nodup x y) k hklen
  have hterm := hzero ((yIdcs x y)[k]) (Finset.mem_range.mpr hi)
  rw [xiLs_getD x y _ hi, hidx] at hterm
  have hgetd : (cumGte (yAsc x y)).getD k 0 = c := by
    rw [List.getD_eq_getElem _ _ hk, hck]
  rw [hgetd] at hterm
  have hb := cumGte_mem_bounds (yAsc x y) c hc
  rw [yAsc_length] at hb
  rcases mul_eq_zero.mp hterm with h1 | h2
  · exfalso
    have : c = 0 := Nat.cast_eq_zero.mp h1
    omega
  · have hcast : (c : ℚ) = (x.length : ℚ) := by linarith
    exact_mod_cast hcast

lemma xiRs_replicate_of_lsum_zero (x y : List α) (hl : xiLsum x y = 0) :
    xiRs x y = List.replicate x.length ((x.length : ℚ)) := by
  have hall := cumGte_all_of_lsum_zero x y hl
  have hchain : (yAsc x y).Chain' (· = ·) := by
    apply cumGte_all_n
    intro c hc
    rw [yAsc_length]
    exact hall c hc
  have hlte : cumLteAux (yAsc x y) 0 = List.replicate x.length x.length := by
    rw [cumLteAux_const _ 0 hchain, yAsc_length]
    simp
  apply List.ext_getElem?
  intro i
  by_cases hi : i < x.length
  · rw [xiRs_getElem? x y i hi, hlte, List.map_replicate, List.getElem?_replicate,
      if_pos (indexOf_yIdcs_lt x y i hi), List.getElem?_replicate, if_pos hi]
  · rw [List.getElem?_eq_none, List.getElem?_eq_none]
    · rw [List.length_replicate]
      omega
    · rw [xiRs_length]
      omega

lemma xiRsum_zero_of_lsum_zero (x y : List α) (hl : xiLsum x y = 0) :
    xiRsum x y = 0 := by
  unfold xiRsum
  rw [xiRs_replicate_of_lsum_zero x y hl, rsumQ_replicate]

/-! ### The pipeline on tie-free self-correlated input -/

lemma argsort_of_strict (arr : List α) (h : arr.Sorted (· < ·)) :
    argsort arr = List.range arr.length := by
  apply List.mergeSort_of_sorted
  apply (List.pairwise_lt_range arr.length).imp_of_mem
  intro a b ha hb hab
  rw [List.mem_range] at ha hb
  have hlt := List.pairwise_iff_getElem.mp h a b ha hb hab
  simp only [decide_eq_true_eq]
  rw [List.getD_eq_getElem _ _ ha, List.getD_eq_getElem _ _ hb]
  exact le_of_lt hlt

lemma sorted_lt_chain_ne (l : List α) (h : l.Sorted (· < ·)) :
    l.Chain' (· ≠ ·) :=
  (List.Pairwise.chain' h).imp (fun _ _ hab => ne_of_lt hab)

lemma yOrd_self_sorted_lt (x : List α) (hnd : x.Nodup) :
    (yOrd x x).Sorted (· < ·) := by
  have hs : (yOrd x x).Sorted (· ≤ ·) := sorted_permute_argsort x
  have hperm : (yOrd x x).Perm x := permute_argsort_perm x
  exact hs.lt_of_le (hperm.symm.nodup hnd)

lemma yIdcs_self (x : List α) (hnd : x.Nodup) :
    yIdcs x x = List.range x.length := by
  unfold yIdcs
  rw [argsort_of_strict _ (yOrd_self_sorted_lt x hnd), yOrd_length]

lemma yAsc_self (x : List α) (hnd : x.Nodup) : yAsc x x = yOrd x x := by
  unfold yAsc
  rw [yIdcs_self x hnd]
  show permute (yOrd x x) (List.range x.length) = yOrd x x
  unfold permute
  rw [← yOrd_length x x]
  exact map_getD_range (yOrd x x)

lemma xiRs_self (x : List α) (hnd : x.Nodup) :
    xiRs x x = (List.range' 1 x.length).map (fun r : ℕ => (r : ℚ)) := by
  unfold xiRs
  rw [yAsc_self x hnd,
    cumLteAux_of_ne _ 0 (sorted_lt_chain_ne _ (yOrd_self_sorted_lt x hnd)),
    yOrd_length, yIdcs_self x hnd]
  simp only [Nat.zero_add]
  apply scatter_range
  · rw [List.length_map, List.length_range']
  · rw [List.length_replicate]

lemma xiRsum_self (x : List α) (hnd : x.Nodup) :
    xiRsum x x = ((x.length - 1 : ℕ) : ℚ) := by
  unfold xiRsum
  rw [xiRs_self x hnd, rsumQ_map_cast, rsumN_range']

lemma xiLs_self (x : List α) (hnd : x.Nodup) :
    xiLs x x = ((List.range' 0 x.length).map (fun k : ℕ => x.length - k)).map
      (fun l : ℕ => (l : ℚ)) := by
  unfold xiLs
  rw [yAsc_self x hnd,
    cumGte_of_ne _ (sorted_lt_chain_ne _ (yOrd_self_sorted_lt x hnd)),
    yOrd_length, yIdcs_self x hnd]
  apply scatter_range
  · rw [List.length_map, List.length_map, List.length_range']
  · rw [List.length_replicate]

lemma list_range_map_sum (n : ℕ) (f : ℕ → ℚ) :
    ((List.range n).map f).sum = ∑ i in Finset.range n, f i := by
  induction n with
  | zero => simp
  | succ m ih =>
    rw [List.range_succ, List.map_append, List.sum_append, ih,
      Finset.sum_range_succ]
    simp

lemma sum_finset_lc (m : ℕ) (c : ℚ) :
    ∑ i in Finset.range m, (((i + 1 : ℕ) : ℚ) * (c - ((i + 1 : ℕ) : ℚ))) =
      c * m * (m + 1) / 2 - m * (m + 1) * (2 * m + 1) / 6 := by
  induction m with
  | zero => simp
  | succ k ih =>
    rw [Finset.sum_range_succ, ih]
    push_cast
    ring

lemma xiLsum_self (x : List α) (hnd : x.Nodup) :
    xiLsum x x = (x.length : ℚ) * x.length * (x.length + 1) / 2
      - x.length * (x.length + 1) * (2 * x.length + 1) / 6 := by
  unfold xiLsum
  rw [xiLs_self x hnd, List.map_map, List.map_map, ← List.range_eq_range',
    list_range_map_sum]
  have hcongr : ∀ i ∈ Finset.range x.length,
      ((((fun l => l * ((x.length : ℚ) - l)) ∘ (fun l : ℕ => (l : ℚ))) ∘
        (fun k : ℕ => x.length - k)) i) =
      (fun j => ((j + 1 : ℕ) : ℚ) * ((x.length : ℚ) - ((j + 1 : ℕ) : ℚ)))
        (x.length - 1 - i) := by
    intro i hi
    rw [Finset.mem_range] at hi
    have harith : x.length - 1 - i + 1 = x.length - i := by omega
    simp only [Function.comp_apply]
    rw [harith]
  rw [Finset.sum_congr rfl hcongr,
    Finset.sum_range_reflect
      (fun j => ((j + 1 : ℕ) : ℚ) * ((x.length : ℚ) - ((j + 1 : ℕ) : ℚ)))
      x.length,
    sum_finset_lc]

/-! ### Claim theorems -/

/-- Claim C8: for every input sequence, `permute(arr, argsort(arr))` is
sorted non-decreasing, and `argsort(arr)` is a bijective permutation of the
indices `0, ..., n-1` (stated as: a permutation of `List.range n`). -/
theorem c8_argsort_permute (arr : List α) :
    (permute arr (argsort arr)).Sorted (· ≤ ·) ∧
    (argsort arr).Perm (List.range arr.length) :=
  ⟨sorted_permute_argsort arr, argsort_perm_range arr⟩

/-- Claim C5: with mismatched lengths, `xicor` panics (modelled as `none`)
before any pipeline computation, and never returns a value. -/
theorem c5_length_mismatch (x y : List α) (h : x.length ≠ y.length) :
    xicor x y = none :=
  xicor_eq_none_of_length_ne x y h

/-- Witness for C5 at a concrete mismatched pair. -/
theorem c5_length_mismatch_witness :
    ([1, 2] : List ℤ).length ≠ ([3] : List ℤ).length ∧
    xicor ([1, 2] : List ℤ) [3] = none :=
  ⟨by decide, c5_length_mismatch [1, 2] [3] (by decide)⟩

unseal List.merge List.mergeSort Rat.add Rat.mul Rat.sub Rat.inv in
/-- Claim C10: on empty inputs the tie counters hit the `arr.len()-1`
underflow and panic (modelled as `none`), so `xicor`, `xicorf`,
`xicor_norm` and `xicorf_norm` never return a value there. -/
theorem c10_empty_panics :
    cumulative_lte ([] : List ℤ) = none ∧
    cumulative_gte ([] : List ℤ) = none ∧
    xicor ([] : List ℤ) [] = none ∧
    xicorf [] [] = none ∧
    xicor_norm ([] : List ℤ) [] = none ∧
    xicorf_norm [] [] = none := by
  decide

unseal List.merge List.mergeSort Rat.add Rat.mul Rat.sub Rat.inv in
/-- Claim C9: on the regression fixture, `xicor` returns a value equal to
0.0909090909 within relative tolerance 1e-8 (here: the exact value 1/11),
and `xicor_norm` returns 0.125 within the same tolerance (exactly 1/8).
The tolerance is the `assert_req` check from the crate's tests:
`|left - right| / ((|left| + |right|)/2) ≤ rtol`. -/
theorem c9_regression :
    xicor ([1, 4, -9, -6, -5, -8, -1, 0, -4, -5] : List ℤ)
        [9, 8, 5, -10, 7, -6, -2, -8, 4, 3] = some (FVal.fin (1 / 11)) ∧
    |(1 / 11 : ℚ) - 909090909 / 10000000000| ≤
      (1 / 100000000) * ((|(1 / 11 : ℚ)| + |(909090909 / 10000000000 : ℚ)|) / 2) ∧
    xicor_norm ([1, 4, -9, -6, -5, -8, -1, 0, -4, -5] : List ℤ)
        [9, 8, 5, -10, 7, -6, -2, -8, 4, 3] = some (FVal.fin (1 / 8)) ∧
    |(1 / 8 : ℚ) - 125 / 1000| ≤
      (1 / 100000000) * ((|(1 / 8 : ℚ)| + |(125 / 1000 : ℚ)|) / 2) := by
  refine ⟨by decide, by decide, by decide, by decide⟩

unseal List.merge List.mergeSort Rat.add Rat.mul Rat.sub Rat.inv in
/-- Claim C6: `xicor_norm` is `xicor` divided by `(n-2)/(n+1)` (an f64
division, modelled by `FVal.divQ`); for `n ≤ 2` the denominator is ≤ 0 and
there is no special guard, so degenerate inputs yield a non-finite result
(two concrete NaN cases at `n = 1` and `n = 2` included); `xicorf_norm` is
the same over floats. -/
theorem c6_norm_contract :
    (∀ (x y : List α), xicor_norm x y = (xicor x y).map
      (fun v => FVal.divQ v (((x.length : ℚ) - 2) / ((x.length : ℚ) + 1)))) ∧
    (∀ n : ℕ, n ≤ 2 → ((n : ℚ) - 2) / ((n : ℚ) + 1) ≤ 0) ∧
    (∀ x y : List ℚ, xicorf_norm x y = (xicorf x y).map
      (fun v => FVal.divQ v (((x.length : ℚ) - 2) / ((x.length : ℚ) + 1)))) ∧
    xicor_norm ([1] : List ℤ) [1] = some FVal.nan ∧
    xicor_norm ([1, 2] : List ℤ) [3, 4] = some FVal.nan := by
  refine ⟨fun x y => rfl, fun n hn => ?_, fun x y => rfl, by decide, by decide⟩
  have h1 : (n : ℚ) - 2 ≤ 0 := by
    have : (n : ℚ) ≤ 2 := by exact_mod_cast hn
    linarith
  have h2 : (0 : ℚ) ≤ (n : ℚ) + 1 := by positivity
  exact div_nonpos_iff.mpr (Or.inr ⟨h1, h2⟩)

/-- Witness for C6: the contract at a concrete pair, and the denominator
bound at `n = 2`. -/
theorem c6_norm_contract_witness :
    xicor_norm ([5, 7] : List ℤ) [1, 4] = (xicor ([5, 7] : List ℤ) [1, 4]).map
      (fun v => FVal.divQ v (((([5, 7] : List ℤ).length : ℚ) - 2) /
        ((([5, 7] : List ℤ).length : ℚ) + 1))) ∧
    (((2 : ℕ) : ℚ) - 2) / (((2 : ℕ) : ℚ) + 1) ≤ 0 :=
  ⟨(@c6_norm_contract ℤ _ _).1 [5, 7] [1, 4],
    (@c6_norm_contract ℤ _ _).2.1 2 (by norm_num)⟩

/-- Claim C4 (amended: for nonempty inputs): when the internal `lsum` is
zero, `xicor` returns NaN to the caller rather than raising or aborting.
On empty inputs (the other way `lsum` is zero) the code panics instead,
which is the counterexample to the claim as stated. -/
theorem c4_lsum_zero_nan (x y : List α) (h : x.length = y.length)
    (hx : x ≠ []) (hl : xiLsum x y = 0) : xicor x y = some FVal.nan := by
  rw [xicor_eq_some x y h hx, xiRsum_zero_of_lsum_zero x y hl, hl]
  norm_num [xiDiv, FVal.oneSub]

unseal List.merge List.mergeSort Rat.add Rat.mul Rat.sub Rat.inv in
/-- Counterexample for C4 as stated: on the empty pair the computed `lsum`
is zero, yet `xicor` does not return NaN (it panics, modelled `none`). -/
theorem c4_lsum_zero_nan_counterexample :
    xiLsum ([] : List ℤ) [] = 0 ∧ xicor ([] : List ℤ) [] ≠ some FVal.nan := by
  decide

unseal List.merge List.mergeSort Rat.add Rat.mul Rat.sub Rat.inv in
/-- Witness for C4 at `n = 1`, where `lsum = 1*(1-1) = 0`. -/
theorem c4_lsum_zero_nan_witness :
    ([1] : List ℤ).length = ([2] : List ℤ).length ∧
    xiLsum ([1] : List ℤ) [2] = 0 ∧
    xicor ([1] : List ℤ) [2] = some FVal.nan :=
  ⟨rfl, by decide, c4_lsum_zero_nan [1] [2] rfl (by decide) (by decide)⟩

lemma xiRs_eq_map_cast (x y : List α) :
    xiRs x y = (xiRsN x y).map (fun r : ℕ => (r : ℚ)) := by
  unfold xiRs xiRsN
  rw [show (List.replicate x.length (0 : ℚ)) =
      (List.replicate x.length (0 : ℕ)).map (fun r : ℕ => (r : ℚ)) by
    rw [List.map_replicate, Nat.cast_zero]]
  exact scatter_map _ _ _ _

lemma xiLs_eq_map_cast (x y : List α) :
    xiLs x y = (xiLsN x y).map (fun l : ℕ => (l : ℚ)) := by
  unfold xiLs xiLsN
  rw [show (List.replicate x.length (0 : ℚ)) =
      (List.replicate x.length (0 : ℕ)).map (fun l : ℕ => (l : ℚ)) by
    rw [List.map_replicate, Nat.cast_zero]]
  exact scatter_map _ _ _ _

lemma rsum_cast_eq (x y : List α) :
    ((rsumN (xiRsN x y) : ℕ) : ℚ) = xiRsum x y := by
  unfold xiRsum
  rw [xiRs_eq_map_cast, rsumQ_map_cast]

lemma lsum_cast_eq (x y : List α) :
    ((((xiLsN x y).map (fun l => l * (x.length - l))).sum : ℕ) : ℚ) =
      xiLsum x y := by
  unfold xiLsum
  rw [xiLs_eq_map_cast, List.map_map, Nat.cast_list_sum, List.map_map]
  apply congrArg List.sum
  apply List.map_congr_left
  intro l hl
  have hb : l ≤ x.length := by
    rcases scatter_mem _ _ _ l hl with h0 | hv
    · have h00 := List.eq_of_mem_replicate h0
      omega
    · have hbb := (cumGte_mem_bounds (yAsc x y) l hv).2
      rwa [yAsc_length] at hbb
  simp only [Function.comp_apply]
  rw [Nat.cast_mul, Nat.cast_sub hb]

/-- Claim C7: the usize-accumulating revision of `xicor` (src/lib.rs) and
the f64-accumulating revision (src/xicor.rs) return equal results on all
inputs. -/
theorem c7_int_float_equiv (x y : List α) : xicorInt x y = xicor x y := by
  unfold xicorInt xicor
  simp only [rsum_cast_eq, lsum_cast_eq]

/-- Claim C2 (amended: nonempty inputs): `xicor` computes exactly the
spec-stated pipeline `xicorSpec` — gather the scattered rank sequences via
`R[p2[k]] = R_sorted[k]`, form `rsum` and `lsum` as the spec sums, and
return `1 - n*rsum/(2*lsum)` (NaN when `lsum = 0`). -/
theorem c2_pipeline (x y : List α) (h : x.length = y.length) (hx : x ≠ []) :
    xicor x y = some (xicorSpec x y) := by
  rw [xicor_eq_some x y h hx]
  unfold xicorSpec
  rw [← xiRsum_eq_specRsum, ← xiLsum_eq_specLsum]
  by_cases hl : xiLsum x y = 0
  · rw [if_pos hl, hl, xiRsum_zero_of_lsum_zero x y hl]
    norm_num [xiDiv, FVal.oneSub]
  · rw [if_neg hl]
    have h2 : 2 * xiLsum x y ≠ 0 := by
      intro hc
      apply hl
      linarith
    unfold xiDiv
    rw [if_neg h2]
    rfl

unseal List.merge List.mergeSort Rat.add Rat.mul Rat.sub Rat.inv in
/-- Counterexample for C2 as stated at `n = 0`: the spec pipeline yields
NaN on the empty pair, but the code panics (`none`) and returns nothing. -/
theorem c2_pipeline_counterexample :
    xicor ([] : List ℤ) [] = none ∧ xicorSpec ([] : List ℤ) [] = FVal.nan := by
  constructor
  · decide
  · unfold xicorSpec
    norm_num [specLsum]

unseal List.merge List.mergeSort Rat.add Rat.mul Rat.sub Rat.inv in
/-- Witness for C2 at a concrete nonempty pair. -/
theorem c2_pipeline_witness :
    xicor ([1, 2] : List ℤ) [5, 3] = some (xicorSpec ([1, 2] : List ℤ) [5, 3]) :=
  c2_pipeline [1, 2] [5, 3] rfl (by decide)

/-- Claim C1 (amended: the closed form is `(n-2)/(n+1)`, not `(n-3)/(n+1)`):
for tie-free `x` of length `n > 3`, `xicor(x, x)` is exactly `(n-2)/(n+1)`. -/
theorem c1_self_correlation (x : List α) (hnd : x.Nodup) (hn : 3 < x.length) :
    xicor x x = some (FVal.fin (((x.length : ℚ) - 2) / ((x.length : ℚ) + 1))) := by
  have hx : x ≠ [] := by
    intro hcontra
    rw [hcontra] at hn
    simp at hn
  rw [xicor_eq_some x x rfl hx, xiRsum_self x hnd, xiLsum_self x hnd]
  have hlen4 : (4 : ℚ) ≤ (x.length : ℚ) := by exact_mod_cast hn
  have hcast : ((x.length - 1 : ℕ) : ℚ) = (x.length : ℚ) - 1 :=
    Nat.cast_sub (by omega)
  rw [hcast]
  set n : ℚ := (x.length : ℚ) with hdefn
  have h1 : 0 < n := by linarith
  have h2 : 0 < n + 1 := by linarith
  have h3 : 0 < n - 1 := by linarith
  have hd : 2 * (n * n * (n + 1) / 2 - n * (n + 1) * (2 * n + 1) / 6) ≠ 0 := by
    have hform : 2 * (n * n * (n + 1) / 2 - n * (n + 1) * (2 * n + 1) / 6)
        = n * (n + 1) * (n - 1) / 3 := by ring
    rw [hform]
    exact ne_of_gt (div_pos (mul_pos (mul_pos h1 h2) h3) (by norm_num))
  unfold xiDiv
  rw [if_neg hd]
  simp only [FVal.oneSub, Option.some.injEq, FVal.fin.injEq]
  have hden : 2 * (n * n * (n + 1) / 2 - n * (n + 1) * (2 * n + 1) / 6)
      = n * (n + 1) * (n - 1) / 3 := by ring
  rw [hden]
  have hn0 : n ≠ 0 := ne_of_gt h1
  have hne1 : n + 1 ≠ 0 := ne_of_gt h2
  have hne2 : n - 1 ≠ 0 := ne_of_gt h3
  field_simp
  ring

unseal List.merge List.mergeSort Rat.add Rat.mul Rat.sub Rat.inv in
/-- Counterexample for C1 as stated: at the tie-free `x = [0,1,2,3,4]`
(`n = 5 > 3`), `xicor(x, x)` is `1/2 = (n-2)/(n+1)`, which differs from the
claimed `(n-3)/(n+1) = 1/3`. -/
theorem c1_self_correlation_counterexample :
    xicor ([0, 1, 2, 3, 4] : List ℤ) [0, 1, 2, 3, 4] = some (FVal.fin (1 / 2)) ∧
    (1 / 2 : ℚ) ≠ ((([0, 1, 2, 3, 4] : List ℤ).length : ℚ) - 3) /
      ((([0, 1, 2, 3, 4] : List ℤ).length : ℚ) + 1) := by
  decide

unseal List.merge List.mergeSort Rat.add Rat.mul Rat.sub Rat.inv in
/-- Witness for C1 (amended) at `x = [0,1,2,3,4]`. -/
theorem c1_self_correlation_witness :
    ([0, 1, 2, 3, 4] : List ℤ).Nodup ∧ 3 < ([0, 1, 2, 3, 4] : List ℤ).length ∧
    xicor ([0, 1, 2, 3, 4] : List ℤ) [0, 1, 2, 3, 4] =
      some (FVal.fin (((([0, 1, 2, 3, 4] : List ℤ).length : ℚ) - 2) /
        ((([0, 1, 2, 3, 4] : List ℤ).length : ℚ) + 1))) :=
  ⟨by decide, by decide, c1_self_correlation [0, 1, 2, 3, 4] (by decide) (by decide)⟩

/-- Claim C3: on a sorted-ascending sequence with a maximal tie group
spanning positions `[i, j]`, `cumulative_lte` assigns the constant `j + 1`
on `[i, j]` and `cumulative_gte` assigns the constant `n - i` on `[i, j]`;
moreover any position `p` with no rightward tie gets ≤-count `p + 1`, and
any position with no leftward tie gets ≥-count `n - p`. -/
theorem c3_tie_counters (arr : List α) (hs : arr.Sorted (· ≤ ·)) (i j : ℕ)
    (hij : i ≤ j) (hj : j < arr.length)
    (hgrp : ∀ k, k ≤ j → i ≤ k → arr[k]? = arr[i]?)
    (hleft : i = 0 ∨ arr[i - 1]? ≠ arr[i]?)
    (hright : j + 1 = arr.length ∨ arr[j + 1]? ≠ arr[j]?) :
    (∀ k, k ≤ j → i ≤ k → ((cumulative_lte arr).getD [])[k]? = some (j + 1)) ∧
    (∀ k, k ≤ j → i ≤ k →
      ((cumulative_gte arr).getD [])[k]? = some (arr.length - i)) ∧
    (∀ p, p < arr.length → (p + 1 = arr.length ∨ arr[p + 1]? ≠ arr[p]?) →
      ((cumulative_lte arr).getD [])[p]? = some (p + 1)) ∧
    (∀ p, p < arr.length → (p = 0 ∨ arr[p - 1]? ≠ arr[p]?) →
      ((cumulative_gte arr).getD [])[p]? = some (arr.length - p)) := by
  have hne : arr ≠ [] := by
    intro hcontra
    rw [hcontra] at hj
    simp at hj
  obtain ⟨a, rest, hcons⟩ := List.exists_cons_of_ne_nil hne
  have hlteD : (cumulative_lte arr).getD [] = cumLteAux arr 0 := by
    rw [hcons, cumulative_lte_cons]
    rfl
  have hgteD : (cumulative_gte arr).getD [] = cumGte arr := by
    rw [hcons, cumulative_gte_cons]
    rfl
  have hlte_pt : ∀ p, p < arr.length →
      (p + 1 = arr.length ∨ arr[p + 1]? ≠ arr[p]?) →
      (cumLteAux arr 0)[p]? = some (p + 1) := by
    intro p hp hcond
    by_cases hlast : p + 1 = arr.length
    · have hl := cumLteAux_last arr 0 p hlast
      simpa using hl
    · have hplt : p + 1 < arr.length := by omega
      rcases hcond with hc | hc
      · exact absurd hc hlast
      · rw [cumLteAux_step arr 0 p hplt, if_neg (fun hcc => hc hcc.symm)]
        norm_num
  have hgte_pt : ∀ p, p < arr.length → (p = 0 ∨ arr[p - 1]? ≠ arr[p]?) →
      (cumGte arr)[p]? = some (arr.length - p) := by
    intro p hp hcond
    cases p with
    | zero =>
      rw [hcons, cumGte_zero]
      norm_num
    | succ m =>
      rcases hcond with hc | hc
      · simp at hc
      · have hc2 : arr[m]? ≠ arr[m + 1]? := by simpa using hc
        rw [cumGte_step arr m (by omega), if_neg (fun hcc => hc2 hcc.symm)]
  have hlte_grp : ∀ k, k ≤ j → i ≤ k →
      (cumLteAux arr 0)[k]? = some (j + 1) := by
    have hbase : (cumLteAux arr 0)[j]? = some (j + 1) := hlte_pt j hj hright
    have haux : ∀ d k, k + d = j → i ≤ k →
        (cumLteAux arr 0)[k]? = some (j + 1) := by
      intro d
      induction d with
      | zero =>
        intro k hk _
        rw [show k = j by omega]
        exact hbase
      | succ d ih =>
        intro k hk hik
        have hk1 : k + 1 < arr.length := by omega
        have heq : arr[k]? = arr[k + 1]? := by
          rw [hgrp k (by omega) hik, hgrp (k + 1) (by omega) (by omega)]
        rw [cumLteAux_step arr 0 k hk1, if_pos heq]
        exact ih (k + 1) (by omega) (by omega)
    intro k hkj hik
    exact haux (j - k) k (by omega) hik
  have hgte_grp : ∀ k, k ≤ j → i ≤ k →
      (cumGte arr)[k]? = some (arr.length - i) := by
    have hbase : (cumGte arr)[i]? = some (arr.length - i) :=
      hgte_pt i (by omega) hleft
    have haux : ∀ d k, k = i + d → k ≤ j →
        (cumGte arr)[k]? = some (arr.length - i) := by
      intro d
      induction d with
      | zero =>
        intro k hk _
        rw [show k = i by omega]
        exact hbase
      | succ d ih =>
        intro k hk hkj2
        obtain rfl : k = i + d + 1 := hk
        have hlt : i + d + 1 < arr.length := by omega
        have heq : arr[i + d + 1]? = arr[i + d]? := by
          rw [hgrp (i + d + 1) (by omega) (by omega),
            hgrp (i + d) (by omega) (by omega)]
        rw [cumGte_step arr (i + d) hlt, if_pos heq]
        exact ih (i + d) rfl (by omega)
    intro k hkj hik
    exact haux (k - i) k (by omega) hkj
  refine ⟨?_, ?_, ?_, ?_⟩
  · intro k h1 h2
    rw [hlteD]
    exact hlte_grp k h1 h2
  · intro k h1 h2
    rw [hgteD]
    exact hgte_grp k h1 h2
  · intro p h1 h2
    rw [hlteD]
    exact hlte_pt p h1 h2
  · intro p h1 h2
    rw [hgteD]
    exact hgte_pt p h1 h2

unseal List.merge List.mergeSort Rat.add Rat.mul Rat.sub Rat.inv in
/-- Witness for C3 on `[1,1,2,2,2,3]` with the tie group at positions 2..4:
the ≤-counts are `[2,2,5,5,5,6]` and the ≥-counts are `[6,6,4,4,4,1]`. -/
theorem c3_tie_counters_witness :
    ((cumulative_lte ([1, 1, 2, 2, 2, 3] : List ℤ)).getD [])[3]? = some 5 ∧
    ((cumulative_gte ([1, 1, 2, 2, 2, 3] : List ℤ)).getD [])[3]? = some 4 ∧
    ((cumulative_lte ([1, 1, 2, 2, 2, 3] : List ℤ)).getD [])[5]? = some 6 ∧
    ((cumulative_gte ([1, 1, 2, 2, 2, 3] : List ℤ)).getD [])[0]? = some 6 := by
  obtain ⟨h1, h2, h3, h4⟩ := c3_tie_counters ([1, 1, 2, 2, 2, 3] : List ℤ)
    (by decide) 2 4 (by decide) (by decide) (by decide) (by decide) (by decide)
  exact ⟨h1 3 (by decide) (by decide), h2 3 (by decide) (by decide),
    h3 5 (by decide) (by decide), h4 0 (by decide) (by decide)⟩
